import Mathlib

/-!
Verification development for a small browser front end that extracts a video
identifier from a pasted URL, fetches oEmbed metadata for it, simulates a
download with a fixed-step progress timer, and records completed simulated
downloads in an in-memory history list.

The embedding below follows the single source file of the repository
(`src/App.tsx`).  Strings are modelled as lists of Unicode characters and the
JavaScript regular expression
`^.*(youtu.be\/|v\/|u\/\w\/|embed\/|watch\?v=|&v=)([^#&?]*).*` is embedded by
hand: the leading greedy `.*` (which does not cross a newline) makes the match
pick the rightmost position at which one of the six alternatives matches, the
alternatives have pairwise distinct first characters so at a fixed position at
most one of them can match, and the capture group `[^#&?]*` greedily takes the
maximal run of characters other than the three stop characters.
-/

namespace YtMp3

/-- The character class of the regex shorthand for a word character
(ASCII letters, digits and the underscore). -/
def isWordChar (c : Char) : Bool :=
  c.isAlphanum || c == '_'

/-- Try to match one of the six marker alternatives of the regex at the head
of the character list, returning the remainder after the marker.  The sixth
character of the first alternative is the unescaped dot of the source regex,
which matches any character except a newline. -/
def matchMarker : List Char → Option (List Char)
  | 'y' :: 'o' :: 'u' :: 't' :: 'u' :: c :: 'b' :: 'e' :: '/' :: rest =>
      if c = '\n' then none else some rest
  | 'v' :: '/' :: rest => some rest
  | 'u' :: '/' :: c :: '/' :: rest =>
      if isWordChar c then some rest else none
  | 'e' :: 'm' :: 'b' :: 'e' :: 'd' :: '/' :: rest => some rest
  | 'w' :: 'a' :: 't' :: 'c' :: 'h' :: '?' :: 'v' :: '=' :: rest => some rest
  | '&' :: 'v' :: '=' :: rest => some rest
  | _ => none

/-- A capture stop character of the negated class of the capture group. -/
def stopChar (c : Char) : Bool :=
  c == '#' || c == '&' || c == '?'

/-- The capture group `[^#&?]*`: the maximal run of non-stop characters. -/
def takeCapture (s : List Char) : List Char :=
  s.takeWhile (fun c => !stopChar c)

/-- Scan for the rightmost marker occurrence reachable by the greedy leading
`.*` (which cannot cross a newline), returning the remainder after it. -/
def scanMarkers : List Char → Option (List Char)
  | [] => none
  | c :: rest =>
    match (if c = '\n' then none else scanMarkers rest) with
    | some r => some r
    | none => matchMarker (c :: rest)

/-- `getVideoId` from `src/App.tsx`: match the URL against the regex and
return the captured segment exactly when its length is 11. -/
def getVideoId (url : String) : Option String :=
  match scanMarkers url.data with
  | some rest =>
      let cap := takeCapture rest
      if cap.length = 11 then some (String.mk cap) else none
  | none => none

example : getVideoId ("https://www.youtu.be/dQw4w9WgXcQ") = some ("dQw4w9WgXcQ") := by decide

example : getVideoId ("https://www.youtube.com/watch?v=dQw4w9WgXcQ") = some ("dQw4w9WgXcQ") := by decide

example : getVideoId ("not a url") = none := by decide

example : getVideoId ("v/short") = none := by decide

example : getVideoId ("v/xxx&v=AAAAAAAAAAA") = some ("AAAAAAAAAAA") := by decide

example : getVideoId ("u/a/AAAAAAAAAAA") = some ("AAAAAAAAAAA") := by decide

example : getVideoId ("youtuXbe/AAAAAAAAAAA") = some ("AAAAAAAAAAA") := by decide

example : getVideoId ("x" ++ String.mk ['\n'] ++ "v/AAAAAAAAAAA") = none := by decide

/-- A marker occurrence at position `p` of the string. -/
def markerAt (s : List Char) (p : Nat) : Bool :=
  (matchMarker (s.drop p)).isSome

/-- Position `p` is reachable by the leading `.*`: no newline occurs strictly
before it. -/
def cleanAt (s : List Char) (p : Nat) : Bool :=
  (s.take p).all (fun c => !(c = '\n'))

example : markerAt (String.data ("v/xxx&v=AAAAAAAAAAA")) 5 = true := by decide

example : cleanAt (String.data ("x" ++ String.mk ['\n'] ++ "v/A")) 2 = false := by decide

theorem matchMarker_nil : matchMarker [] = none := rfl

theorem matchMarker_newline (t : List Char) : matchMarker ('\n' :: t) = none := rfl

theorem scanMarkers_newline (t : List Char) : scanMarkers ('\n' :: t) = none := by
  have h : scanMarkers ('\n' :: t) = matchMarker ('\n' :: t) := rfl
  rw [h, matchMarker_newline]

theorem scanMarkers_cons_some (c : Char) (t : List Char) (r : List Char)
    (h : ¬ c = '\n') (hr : scanMarkers t = some r) : scanMarkers (c :: t) = some r := by
  simp [scanMarkers, h, hr]

theorem scanMarkers_cons_none (c : Char) (t : List Char)
    (h : ¬ c = '\n') (hr : scanMarkers t = none) :
    scanMarkers (c :: t) = matchMarker (c :: t) := by
  simp [scanMarkers, h, hr]

theorem markerAt_cons_succ (c : Char) (t : List Char) (p : Nat) :
    markerAt (c :: t) (p + 1) = markerAt t p := by
  rw [markerAt, markerAt, List.drop_succ_cons]

theorem markerAt_zero (s : List Char) : markerAt s 0 = (matchMarker s).isSome := by
  rw [markerAt, List.drop_zero]

theorem cleanAt_zero (s : List Char) : cleanAt s 0 = true := rfl

theorem cleanAt_cons_succ (c : Char) (t : List Char) (p : Nat) :
    cleanAt (c :: t) (p + 1) = (!(c = '\n') && cleanAt t p) := by
  simp [cleanAt]

/-- If some reachable position carries a marker, the scan succeeds. -/
theorem scanMarkers_isSome (s : List Char) (p : Nat) (hm : markerAt s p = true)
    (hc : cleanAt s p = true) : (scanMarkers s).isSome = true := by
  induction s generalizing p with
  | nil =>
    rw [markerAt, List.drop_nil, matchMarker_nil] at hm
    simp at hm
  | cons c t ih =>
    by_cases hcn : c = '\n'
    · subst hcn
      cases p with
      | zero =>
        rw [markerAt_zero, matchMarker_newline] at hm
        simp at hm
      | succ q =>
        rw [cleanAt_cons_succ] at hc
        simp at hc
    · cases h1 : scanMarkers t with
      | some r =>
        rw [scanMarkers_cons_some c t r hcn h1]
        rfl
      | none =>
        rw [scanMarkers_cons_none c t hcn h1]
        cases p with
        | zero =>
          rw [markerAt_zero] at hm
          exact hm
        | succ q =>
          rw [markerAt_cons_succ] at hm
          rw [cleanAt_cons_succ] at hc
          have hct : cleanAt t q = true := (Bool.and_eq_true_iff.mp hc).2
          have := ih q hm hct
          rw [h1] at this
          simp at this

/-- The scan returns the remainder after the rightmost marker occurrence that
is reachable without crossing a newline, exactly as the greedy leading `.*`
of the source regex does. -/
theorem scanMarkers_eq_some_iff (s : List Char) (rest : List Char) :
    scanMarkers s = some rest ↔
      ∃ p, matchMarker (s.drop p) = some rest ∧ cleanAt s p = true ∧
        ∀ q, markerAt s q = true → cleanAt s q = true → q ≤ p := by
  induction s generalizing rest with
  | nil =>
    constructor
    · intro h
      simp [scanMarkers] at h
    · rintro ⟨p, hm, -, -⟩
      rw [List.drop_nil, matchMarker_nil] at hm
      exact absurd hm (by simp)
  | cons c t ih =>
    by_cases hcn : c = '\n'
    · subst hcn
      rw [scanMarkers_newline]
      constructor
      · intro h
        exact absurd h (by simp)
      · rintro ⟨p, hm, hc, -⟩
        cases p with
        | zero =>
          rw [List.drop_zero, matchMarker_newline] at hm
          exact absurd hm (by simp)
        | succ q =>
          rw [cleanAt_cons_succ] at hc
          simp at hc
    · cases h1 : scanMarkers t with
      | some r =>
        rw [scanMarkers_cons_some c t r hcn h1]
        constructor
        · intro h
          have hr : r = rest := by
            injection h
          subst hr
          obtain ⟨p, hm, hc, hmax⟩ := (ih r).mp h1
          refine ⟨p + 1, ?_, ?_, ?_⟩
          · rw [List.drop_succ_cons]
            exact hm
          · rw [cleanAt_cons_succ]
            simp [hcn, hc]
          · intro q hq hcq
            cases q with
            | zero => exact Nat.zero_le _
            | succ q2 =>
              rw [markerAt_cons_succ] at hq
              rw [cleanAt_cons_succ] at hcq
              have hcq2 : cleanAt t q2 = true := (Bool.and_eq_true_iff.mp hcq).2
              exact Nat.succ_le_succ (hmax q2 hq hcq2)
        · rintro ⟨p, hm, hc, hmax⟩
          obtain ⟨p0, hm0, hc0, -⟩ := (ih r).mp h1
          cases p with
          | zero =>
            exfalso
            have hq : markerAt (c :: t) (p0 + 1) = true := by
              rw [markerAt_cons_succ, markerAt]
              rw [hm0]
              rfl
            have hcq : cleanAt (c :: t) (p0 + 1) = true := by
              rw [cleanAt_cons_succ]
              simp [hcn, hc0]
            have := hmax (p0 + 1) hq hcq
            omega
          | succ p2 =>
            rw [List.drop_succ_cons] at hm
            rw [cleanAt_cons_succ] at hc
            have hc2 : cleanAt t p2 = true := (Bool.and_eq_true_iff.mp hc).2
            have hmax2 : ∀ q, markerAt t q = true → cleanAt t q = true → q ≤ p2 := by
              intro q hq hcq
              have hq1 : markerAt (c :: t) (q + 1) = true := by
                rw [markerAt_cons_succ]; exact hq
              have hcq1 : cleanAt (c :: t) (q + 1) = true := by
                rw [cleanAt_cons_succ]; simp [hcn, hcq]
              have := hmax (q + 1) hq1 hcq1
              omega
            have h2 : scanMarkers t = some rest := (ih rest).mpr ⟨p2, hm, hc2, hmax2⟩
            rw [h1] at h2
            injection h2 with h3
            rw [h3]
      | none =>
        rw [scanMarkers_cons_none c t hcn h1]
        constructor
        · intro h
          refine ⟨0, ?_, cleanAt_zero _, ?_⟩
          · rw [List.drop_zero]
            exact h
          · intro q hq hcq
            cases q with
            | zero => exact Nat.le_refl 0
            | succ q2 =>
              exfalso
              rw [markerAt_cons_succ] at hq
              rw [cleanAt_cons_succ] at hcq
              have hcq2 : cleanAt t q2 = true := (Bool.and_eq_true_iff.mp hcq).2
              have := scanMarkers_isSome t q2 hq hcq2
              rw [h1] at this
              simp at this
        · rintro ⟨p, hm, hc, -⟩
          cases p with
          | zero =>
            rw [List.drop_zero] at hm
            exact hm
          | succ p2 =>
            exfalso
            rw [List.drop_succ_cons] at hm
            rw [cleanAt_cons_succ] at hc
            have hc2 : cleanAt t p2 = true := (Bool.and_eq_true_iff.mp hc).2
            have hq : markerAt t p2 = true := by
              rw [markerAt, hm]
              rfl
            have := scanMarkers_isSome t p2 hq hc2
            rw [h1] at this
            simp at this

/-- Modelled from the claim wording of the recognized URL shapes, read
literally: `youtu.be/` with a literal dot, `v/`, `u/<digit>/`, `embed/`,
`watch?v=` and `&v=`.  This is the shape list the claim states, which the
source regex does not implement exactly (its dot is an unescaped wildcard and
its third alternative accepts any word character, not only digits). -/
def specShapeAt : List Char → Bool
  | 'y' :: 'o' :: 'u' :: 't' :: 'u' :: '.' :: 'b' :: 'e' :: '/' :: _ => true
  | 'v' :: '/' :: _ => true
  | 'u' :: '/' :: c :: '/' :: _ => c.isDigit
  | 'e' :: 'm' :: 'b' :: 'e' :: 'd' :: '/' :: _ => true
  | 'w' :: 'a' :: 't' :: 'c' :: 'h' :: '?' :: 'v' :: '=' :: _ => true
  | '&' :: 'v' :: '=' :: _ => true
  | _ => false

/-- The string contains, at some position, one of the URL shapes exactly as
the claim lists them. -/
def specMatchesShape (s : String) : Bool :=
  (List.range s.data.length).any (fun p => specShapeAt (s.data.drop p))

/-- Counterexample to C1 as stated: `u/a/AAAAAAAAAAA` contains none of the
claimed shapes (`a` is not a digit, and no other shape occurs in it), so the
claim requires the extractor to return none; the extractor returns the
11-character segment, because the source regex accepts any word character
after `u/`. -/
theorem getVideoId_shape_counterexample :
    specMatchesShape ("u/a/AAAAAAAAAAA") = false ∧
    getVideoId ("u/a/AAAAAAAAAAA") = some ("AAAAAAAAAAA") := by
  constructor
  · decide
  · decide

/-- Claim C1, amended: the extractor returns some identifier exactly when one
of the regex markers (`youtu.be/` with the dot matching any non-newline
character, `v/`, `u/<word char>/`, `embed/`, `watch?v=`, `&v=`) occurs in the
string at a position not preceded by a newline, taking the last such
occurrence, and the segment following that occurrence up to the first `#`,
`&` or `?` has length exactly 11; the returned identifier is that segment. -/
theorem getVideoId_characterization (s id : String) :
    getVideoId s = some id ↔
      ∃ p rest, matchMarker (s.data.drop p) = some rest ∧ cleanAt s.data p = true ∧
        (∀ q, markerAt s.data q = true → cleanAt s.data q = true → q ≤ p) ∧
        (takeCapture rest).length = 11 ∧ id = String.mk (takeCapture rest) := by
  rw [getVideoId]
  cases hsc : scanMarkers s.data with
  | none =>
    simp only []
    constructor
    · intro h
      exact absurd h (by simp)
    · rintro ⟨p, rest, hm, hc, hmax, -, -⟩
      have h2 : scanMarkers s.data = some rest :=
        (scanMarkers_eq_some_iff s.data rest).mpr ⟨p, hm, hc, hmax⟩
      rw [hsc] at h2
      exact absurd h2 (by simp)
  | some rest0 =>
    simp only []
    obtain ⟨p0, hm0, hc0, hmax0⟩ := (scanMarkers_eq_some_iff s.data rest0).mp hsc
    by_cases hlen : (takeCapture rest0).length = 11
    · rw [if_pos hlen]
      constructor
      · intro h
        have hid : id = String.mk (takeCapture rest0) := by
          injection h with h2
          rw [h2]
        exact ⟨p0, rest0, hm0, hc0, hmax0, hlen, hid⟩
      · rintro ⟨p, rest, hm, hc, hmax, hlen2, hid⟩
        have h2 : scanMarkers s.data = some rest :=
          (scanMarkers_eq_some_iff s.data rest).mpr ⟨p, hm, hc, hmax⟩
        rw [hsc] at h2
        injection h2 with h3
        rw [hid, h3]
    · rw [if_neg hlen]
      constructor
      · intro h
        exact absurd h (by simp)
      · rintro ⟨p, rest, hm, hc, hmax, hlen2, -⟩
        exfalso
        have h2 : scanMarkers s.data = some rest :=
          (scanMarkers_eq_some_iff s.data rest).mpr ⟨p, hm, hc, hmax⟩
        rw [hsc] at h2
        injection h2 with h3
        rw [← h3] at hlen2
        exact hlen hlen2

/-- Claim C10: when more than one marker occurs in the string, the extractor
is decided by the capture after the last occurrence, not the first: its
result is exactly the length-11 filter applied to the capture following the
rightmost marker occurrence. -/
theorem getVideoId_uses_last_marker (s : String) (p1 p2 : Nat) (rest2 : List Char)
    (h1 : markerAt s.data p1 = true) (hc1 : cleanAt s.data p1 = true)
    (hlt : p1 < p2)
    (hm2 : matchMarker (s.data.drop p2) = some rest2) (hc2 : cleanAt s.data p2 = true)
    (hlast : ∀ q, markerAt s.data q = true → cleanAt s.data q = true → q ≤ p2) :
    getVideoId s =
      (if (takeCapture rest2).length = 11
        then some (String.mk (takeCapture rest2)) else none) := by
  have h2 : scanMarkers s.data = some rest2 :=
    (scanMarkers_eq_some_iff s.data rest2).mpr ⟨p2, hm2, hc2, hlast⟩
  rw [getVideoId, h2]

/-- Witness for C10: `v/xxx&v=AAAAAAAAAAA` carries a `v/` marker at position 0
and a later `&v=` marker at position 5; the extractor returns the segment
after the later one. -/
theorem getVideoId_uses_last_marker_witness :
    getVideoId ("v/xxx&v=AAAAAAAAAAA") = some ("AAAAAAAAAAA") := by
  have hlen : (String.data ("v/xxx&v=AAAAAAAAAAA")).length = 19 := by decide
  have hb : ∀ q, q < 19 → markerAt (String.data ("v/xxx&v=AAAAAAAAAAA")) q = true →
      cleanAt (String.data ("v/xxx&v=AAAAAAAAAAA")) q = true → q ≤ 5 := by decide
  have hlast : ∀ q, markerAt (String.data ("v/xxx&v=AAAAAAAAAAA")) q = true →
      cleanAt (String.data ("v/xxx&v=AAAAAAAAAAA")) q = true → q ≤ 5 := by
    intro q hm hc
    rcases Nat.lt_or_ge q 19 with h | h
    · exact hb q h hm hc
    · exfalso
      have hd : (String.data ("v/xxx&v=AAAAAAAAAAA")).drop q = [] := by
        apply List.drop_eq_nil_of_le
        rw [hlen]
        exact h
      rw [markerAt, hd, matchMarker_nil] at hm
      exact absurd hm (by simp)
  have h := getVideoId_uses_last_marker ("v/xxx&v=AAAAAAAAAAA") 0 5
    (String.data ("AAAAAAAAAAA"))
    (by decide) (by decide) (by decide) (by decide) (by decide) hlast
  exact h.trans (by decide)

/-- The output format toggle of the form. -/
inductive Format
  | mp3
  | mp4
deriving DecidableEq

/-- The `VideoMetadata` interface of `src/App.tsx`. -/
structure VideoMetadata where
  title : String
  description : String
  author : String
  thumbnailUrl : String
deriving DecidableEq

/-- The `DownloadHistory` interface of `src/App.tsx`; the timestamp produced
by `new Date()` is modelled as a natural number. -/
structure DownloadHistory where
  url : String
  format : Format
  quality : Option String
  timestamp : Nat
  metadata : Option VideoMetadata
deriving DecidableEq

/-- The oEmbed response fields the code reads (`title` and `author_name`). -/
structure OEmbed where
  title : String
  author_name : String
deriving DecidableEq

/-- The fixed image-host URL template of `fetchMetadata`, parameterized only
by the video identifier. -/
def thumbnailTemplate (videoId : String) : String :=
  "https://img.youtube.com/vi/" ++ videoId ++ "/maxresdefault.jpg"

/-- The metadata record built by `fetchMetadata` from a successful response:
title and author from the response, description defaulted to the title, and
the thumbnail from the fixed template. -/
def buildMetadata (videoId : String) (resp : OEmbed) : VideoMetadata :=
  { title := resp.title
    author := resp.author_name
    description := resp.title
    thumbnailUrl := thumbnailTemplate videoId }

/-- `fetchMetadata` as a function of the network outcome: a parsed response
produces the built record, any failure (network error or malformed response,
the `catch` branch) produces no metadata instead of an error. -/
def fetchMetadata (videoId : String) (resp : Option OEmbed) : Option VideoMetadata :=
  match resp with
  | some r => some (buildMetadata videoId r)
  | none => none

/-- The values `handleDownload` closes over at submission time and that the
interval callback later writes into the history entry. -/
structure SubmitSnap where
  url : String
  format : Format
  quality : String
  metadata : Option VideoMetadata
deriving DecidableEq

/-- The component state of `App`.  The `timer` field models the live interval
handle together with its closure (present exactly while the simulation runs);
`nextReq` and `latestReq` are ghost bookkeeping that numbers the fetches
launched by URL edits and records which launch is the most recent one (none
after a clearing edit) — the code itself never reads them. -/
structure AppState where
  url : String
  format : Format
  quality : String
  isDarkMode : Bool
  history : List DownloadHistory
  isLoading : Bool
  progress : Nat
  metadata : Option VideoMetadata
  isLoadingMetadata : Bool
  timer : Option SubmitSnap
  nextReq : Nat
  latestReq : Option Nat
deriving DecidableEq

/-- The initial `useState` values of `App`. -/
def initState : AppState :=
  { url := ""
    format := Format.mp4
    quality := "720p"
    isDarkMode := false
    history := []
    isLoading := false
    progress := 0
    metadata := none
    isLoadingMetadata := false
    timer := none
    nextReq := 0
    latestReq := none }

/-- `handleUrlChange`: store the new text; on a recognized URL start a fetch
(the loading flag goes up, and the ghost counters record the new launch), on
anything else clear the metadata immediately. -/
def handleUrlChange (s : String) (st : AppState) : AppState :=
  match getVideoId s with
  | some _ =>
      { st with
          url := s
          isLoadingMetadata := true
          latestReq := some st.nextReq
          nextReq := st.nextReq + 1 }
  | none =>
      { st with url := s, metadata := none, latestReq := none }

/-- Completion of an outstanding fetch in the code: `fetchMetadata` writes
its result into the metadata state unconditionally — the token of the launch
it belongs to is ignored — and `handleUrlChange` then drops the loading
flag. -/
def applyFetchResult (tok : Nat) (result : Option VideoMetadata) (st : AppState) : AppState :=
  { st with metadata := result, isLoadingMetadata := false }

/-- Modelled from the spec: the stale-fetch guard of design note 9 (tag each
fetch with a monotonically increasing request token; on completion, apply the
result only if its token matches the current token, else discard silently).
The repository has no such guard; this definition states what the claim
requires, for comparison with `applyFetchResult`. -/
def guardedFetchResult (tok : Nat) (result : Option VideoMetadata) (st : AppState) : AppState :=
  if st.latestReq = some tok then
    { st with metadata := result, isLoadingMetadata := false }
  else st

/-- The snapshot of the fields `handleDownload` closes over. -/
def snapOf (st : AppState) : SubmitSnap :=
  { url := st.url, format := st.format, quality := st.quality, metadata := st.metadata }

/-- `handleDownload`: raise the loading flag and start the interval timer,
whose closure snapshots the current url, format, quality and metadata.  The
handler itself checks nothing. -/
def handleDownload (st : AppState) : AppState :=
  { st with isLoading := true, timer := some (snapOf st) }

/-- The history entry written by the interval callback on completion. -/
def mkEntry (sn : SubmitSnap) (now : Nat) : DownloadHistory :=
  { url := sn.url
    format := sn.format
    quality := if sn.format = Format.mp4 then some sn.quality else none
    timestamp := now
    metadata := sn.metadata }

/-- One firing of the interval callback of `handleDownload`: with the timer
live, a progress below 100 is advanced by 10; once the previous value has
reached 100, the interval is cleared, the loading flag dropped, the progress
reset to 0 and one history entry prepended from the submission snapshot. -/
def tick (now : Nat) (st : AppState) : AppState :=
  match st.timer with
  | none => st
  | some sn =>
      if 100 ≤ st.progress then
        { st with
            timer := none
            isLoading := false
            progress := 0
            history := mkEntry sn now :: st.history }
      else
        { st with progress := st.progress + 10 }

/-- `clearHistory`. -/
def clearHistory (st : AppState) : AppState :=
  { st with history := [] }

/-- The `disabled` attribute of the submit control:
`isLoading || !metadata`. -/
def disabledSubmit (st : AppState) : Bool :=
  st.isLoading || st.metadata.isNone

/-- Submission through the form: the control only reaches `handleDownload`
when it is not disabled. -/
def uiSubmit (st : AppState) : AppState :=
  if disabledSubmit st then st else handleDownload st

/-- The user-interface events of the component. -/
inductive Event
  | editUrl (s : String)
  | fetchComplete (tok : Nat) (result : Option VideoMetadata)
  | setFormatEv (f : Format)
  | setQualityEv (q : String)
  | toggleTheme
  | submit
  | tickEv (now : Nat)
  | clearHistoryEv
deriving DecidableEq

/-- The event-step function of the component, with fetch completions applied
as the code applies them (unconditionally). -/
def step : Event → AppState → AppState
  | Event.editUrl s, st => handleUrlChange s st
  | Event.fetchComplete tok r, st => applyFetchResult tok r st
  | Event.setFormatEv f, st => { st with format := f }
  | Event.setQualityEv q, st => { st with quality := q }
  | Event.toggleTheme, st => { st with isDarkMode := !st.isDarkMode }
  | Event.submit, st => uiSubmit st
  | Event.tickEv now, st => tick now st
  | Event.clearHistoryEv, st => clearHistory st

/-- The step function with the spec-modelled stale-fetch guard in place of
the code's unconditional application. -/
def stepGuarded : Event → AppState → AppState
  | Event.fetchComplete tok r, st => guardedFetchResult tok r st
  | ev, st => step ev st

/-- Run the component from its initial state over a list of events. -/
def run (evs : List Event) : AppState :=
  List.foldl (fun st ev => step ev st) initState evs

/-- Run the spec-guarded variant from the initial state. -/
def runGuarded (evs : List Event) : AppState :=
  List.foldl (fun st ev => stepGuarded ev st) initState evs

theorem tick_inactive (now : Nat) (st : AppState) (h : st.timer = none) :
    tick now st = st := by
  rw [tick, h]

theorem tick_advance (now : Nat) (sn : SubmitSnap) (st : AppState)
    (h : st.timer = some sn) (hp : st.progress < 100) :
    tick now st = { st with progress := st.progress + 10 } := by
  rw [tick, h]
  simp only []
  rw [if_neg (by omega)]

theorem tick_finish (now : Nat) (sn : SubmitSnap) (st : AppState)
    (h : st.timer = some sn) (hp : 100 ≤ st.progress) :
    tick now st =
      { st with
          timer := none
          isLoading := false
          progress := 0
          history := mkEntry sn now :: st.history } := by
  rw [tick, h]
  simp only []
  rw [if_pos hp]

theorem tick_iter_inactive (now : Nat) (m : Nat) (st : AppState) (h : st.timer = none) :
    (tick now)^[m] st = st := by
  induction m with
  | zero => rfl
  | succ k ih =>
    rw [Function.iterate_succ_apply, tick_inactive now st h, ih]

theorem tick_iter_advance (now : Nat) (sn : SubmitSnap) (st : AppState)
    (h : st.timer = some sn) (k : Nat) (hk : st.progress + 10 * k ≤ 100) :
    (tick now)^[k] st = { st with progress := st.progress + 10 * k } := by
  induction k generalizing st with
  | zero =>
    show st = { st with progress := st.progress + 10 * 0 }
    cases st
    simp
  | succ k2 ih =>
    rw [Function.iterate_succ_apply]
    have hp : st.progress < 100 := by omega
    rw [tick_advance now sn st h hp]
    have h2 := ih { st with progress := st.progress + 10 } (by simp [h]) (by simp; omega)
    rw [h2]
    have h3 : st.progress + 10 + 10 * k2 = st.progress + 10 * (k2 + 1) := by ring
    simp [h3]

theorem handleDownload_iter_advance (st : AppState) (now : Nat) (h0 : st.progress = 0)
    (k : Nat) (hk : k ≤ 10) :
    (tick now)^[k] (handleDownload st) =
      { handleDownload st with progress := 10 * k } := by
  have hsd : (handleDownload st).timer = some (snapOf st) := rfl
  have hsp : (handleDownload st).progress = st.progress := rfl
  have h2 := tick_iter_advance now (snapOf st) (handleDownload st) hsd k
    (by rw [hsp, h0]; omega)
  rw [h2, hsp, h0]
  simp

theorem handleDownload_iter_finish (st : AppState) (now : Nat) (h0 : st.progress = 0) :
    (tick now)^[11] (handleDownload st) =
      { st with
          isLoading := false
          progress := 0
          timer := none
          history := mkEntry (snapOf st) now :: st.history } := by
  have h10 := handleDownload_iter_advance st now h0 10 (by omega)
  have h11 : (tick now)^[11] (handleDownload st) =
      tick now ((tick now)^[10] (handleDownload st)) := by
    rw [← Function.iterate_succ_apply' (tick now) 10]
  rw [h11, h10]
  have h12 := tick_finish now (snapOf st)
    { handleDownload st with progress := 10 * 10 } (by simp [handleDownload]) (by simp)
  rw [h12]
  rw [handleDownload]

/-- Claim C3: from an idle state (progress 0, no timer), a submission enters
the running state at progress 0; the first ten firings of the interval
callback raise the progress in steps of exactly 10 without touching the
history; the eleventh firing cancels the timer, resets the progress to 0 and
appends exactly one history entry built from the submission-time snapshot;
and every further firing changes nothing, so the reset and the appended entry
happen exactly once. -/
theorem downloadSimulatorRun (st : AppState) (now : Nat)
    (h0 : st.progress = 0) (ht : st.timer = none) :
    ((handleDownload st).progress = 0 ∧ (handleDownload st).isLoading = true ∧
      (handleDownload st).timer = some (snapOf st)) ∧
    (∀ k, k ≤ 10 →
      ((tick now)^[k] (handleDownload st)).progress = 10 * k ∧
      ((tick now)^[k] (handleDownload st)).history = st.history) ∧
    ((tick now)^[11] (handleDownload st) =
      { st with
          isLoading := false
          progress := 0
          timer := none
          history := mkEntry (snapOf st) now :: st.history }) ∧
    (∀ m, (tick now)^[m] ((tick now)^[11] (handleDownload st)) =
      (tick now)^[11] (handleDownload st)) := by
  have hsp : (handleDownload st).progress = st.progress := rfl
  have hfin := handleDownload_iter_finish st now h0
  refine ⟨⟨by rw [hsp, h0], rfl, rfl⟩, ?_, hfin, ?_⟩
  · intro k hk
    rw [handleDownload_iter_advance st now h0 k hk]
    constructor
    · rfl
    · rfl
  · intro m
    apply tick_iter_inactive
    rw [hfin]

/-- Witness for C3: running the simulator from the initial state augmented
with loaded metadata produces exactly one history entry and returns to an
idle zero-progress state. -/
theorem downloadSimulatorRun_witness :
    (tick 77)^[11] (handleDownload initState) =
      { initState with
          isLoading := false
          progress := 0
          timer := none
          history := [mkEntry (snapOf initState) 77] } :=
  (downloadSimulatorRun initState 77 rfl rfl).2.2.1

/-- Claim C9: invoked with no metadata present, the download handler performs
no precondition check: it still enters the running state, the full simulation
runs, and the appended history entry simply carries an absent metadata
field. -/
theorem handleDownloadNoMetadataCheck (st : AppState) (now : Nat)
    (h0 : st.progress = 0) (ht : st.timer = none) (hm : st.metadata = none) :
    (handleDownload st).isLoading = true ∧
    (handleDownload st).timer = some (snapOf st) ∧
    ((tick now)^[11] (handleDownload st)).history =
      mkEntry (snapOf st) now :: st.history ∧
    (mkEntry (snapOf st) now).metadata = none := by
  refine ⟨rfl, rfl, ?_, ?_⟩
  · rw [handleDownload_iter_finish st now h0]
  · show st.metadata = none
    exact hm

/-- Witness for C9: the initial state has no metadata, yet submission runs
through and records an entry with absent metadata. -/
theorem handleDownloadNoMetadataCheck_witness :
    ((tick 3)^[11] (handleDownload initState)).history =
      [mkEntry (snapOf initState) 3] ∧
    (mkEntry (snapOf initState) 3).metadata = none :=
  ⟨(handleDownloadNoMetadataCheck initState 3 rfl rfl rfl).2.2.1,
   (handleDownloadNoMetadataCheck initState 3 rfl rfl rfl).2.2.2⟩

/-- Whether a format is mp4. -/
def isMp4 : Format → Bool
  | Format.mp4 => true
  | Format.mp3 => false

/-- The history-entry invariant of the data model: the quality field is
present exactly when the format is mp4. -/
def entryInvB (e : DownloadHistory) : Bool :=
  e.quality.isSome == isMp4 e.format

theorem entryInvB_mkEntry (sn : SubmitSnap) (now : Nat) :
    entryInvB (mkEntry sn now) = true := by
  cases sn with
  | mk u f q m =>
    cases f
    · rfl
    · rfl

theorem histInv_step (ev : Event) (st : AppState)
    (h : st.history.all entryInvB = true) :
    (step ev st).history.all entryInvB = true := by
  cases ev with
  | editUrl s =>
    show (handleUrlChange s st).history.all entryInvB = true
    cases hg : getVideoId s with
    | some v => rw [handleUrlChange, hg]; exact h
    | none => rw [handleUrlChange, hg]; exact h
  | fetchComplete tok r => exact h
  | setFormatEv f => exact h
  | setQualityEv q => exact h
  | toggleTheme => exact h
  | submit =>
    show (uiSubmit st).history.all entryInvB = true
    rw [uiSubmit]
    cases hd : disabledSubmit st with
    | true => rw [if_pos rfl]; exact h
    | false => rw [if_neg (by simp)]; exact h
  | tickEv now =>
    show (tick now st).history.all entryInvB = true
    cases htm : st.timer with
    | none => rw [tick_inactive now st htm]; exact h
    | some sn =>
      rcases Nat.lt_or_ge st.progress 100 with hp | hp
      · rw [tick_advance now sn st htm hp]
        exact h
      · rw [tick_finish now sn st htm hp]
        rw [List.all_cons, entryInvB_mkEntry, h]
        rfl
  | clearHistoryEv => rfl

/-- Claim C4: in every state the component can reach by any sequence of its
operations, every history entry has its quality field present exactly when
its format is mp4. -/
theorem historyQualityInvariant (evs : List Event) :
    ((run evs).history.all entryInvB) = true := by
  rw [run]
  have hgen : ∀ l st, st.history.all entryInvB = true →
      (List.foldl (fun st2 ev => step ev st2) st l).history.all entryInvB = true := by
    intro l
    induction l with
    | nil => intro st h; exact h
    | cons e es ih =>
      intro st h
      rw [List.foldl_cons]
      exact ih (step e st) (histInv_step e st h)
  exact hgen evs initState rfl

/-- Claim C7: an edit whose new value has no recognized identifier clears the
metadata at once, whatever the previous state held. -/
theorem nonMatchingEditClearsMetadata (st : AppState) (s : String)
    (h : getVideoId s = none) :
    (handleUrlChange s st).metadata = none := by
  rw [handleUrlChange, h]

/-- Witness for C7: editing to `not a url` while metadata is loaded clears
it. -/
theorem nonMatchingEditClearsMetadata_witness :
    (handleUrlChange ("not a url")
      { initState with
          metadata := some
            { title := "t", description := "t", author := "a", thumbnailUrl := "u" } }).metadata
      = none :=
  nonMatchingEditClearsMetadata _ ("not a url") (by decide)

/-- Claim C8: the submit control is disabled exactly when no metadata is
present or a simulated download is running, and a disabled control makes
submission a no-op, so no download can start in those states. -/
theorem submitGuard (st : AppState) :
    (disabledSubmit st = true ↔ (st.metadata = none ∨ st.isLoading = true)) ∧
    (disabledSubmit st = true → uiSubmit st = st) := by
  constructor
  · rw [disabledSubmit]
    rw [Bool.or_eq_true]
    rw [Option.isNone_iff_eq_none]
    constructor
    · intro h2
      rcases h2 with h2 | h2
      · exact Or.inr h2
      · exact Or.inl h2
    · intro h2
      rcases h2 with h2 | h2
      · exact Or.inr h2
      · exact Or.inl h2
  · intro h2
    rw [uiSubmit, if_pos h2]

/-- Witness for C8: in the initial state no metadata is present, so the
control is disabled and submission does nothing. -/
theorem submitGuard_witness : uiSubmit initState = initState :=
  (submitGuard initState).2 ((submitGuard initState).1.mpr (Or.inl rfl))

/-- Claim C6: a failed fetch (the catch branch) produces no metadata rather
than an error, and applying the failure to the component only clears the
metadata and the loading flag — no other state, in particular nothing the
interface renders, is touched. -/
theorem fetchFailureSilent (st : AppState) (tok : Nat) (videoId : String) :
    fetchMetadata videoId none = none ∧
    step (Event.fetchComplete tok (fetchMetadata videoId none)) st =
      { st with metadata := none, isLoadingMetadata := false } :=
  ⟨rfl, rfl⟩

/-- Claim C5: a successful lookup yields a record whose title and author come
from the response, whose description equals the title, and whose thumbnail
URL is the fixed image-host template applied to the identifier alone. -/
theorem fetchMetadataSuccess (videoId : String) (resp : OEmbed) (m : VideoMetadata)
    (h : fetchMetadata videoId (some resp) = some m) :
    m.title = resp.title ∧ m.author = resp.author_name ∧
    m.description = m.title ∧ m.thumbnailUrl = thumbnailTemplate videoId := by
  have h2 : buildMetadata videoId resp = m := by
    injection h
  rw [← h2]
  exact ⟨rfl, rfl, rfl, rfl⟩

/-- Witness for C5: a concrete successful lookup. -/
theorem fetchMetadataSuccess_witness :
    (buildMetadata ("dQw4w9WgXcQ") { title := "T", author_name := "A" }).thumbnailUrl =
      thumbnailTemplate ("dQw4w9WgXcQ") :=
  (fetchMetadataSuccess ("dQw4w9WgXcQ") { title := "T", author_name := "A" }
    (buildMetadata ("dQw4w9WgXcQ") { title := "T", author_name := "A" }) rfl).2.2.2

/-- Claim C2, evaluated on the code: a first edit launches fetch 0, a second
edit to a non-matching value clears the metadata, and when the stale fetch 0
then completes the code applies its result anyway, overwriting the cleared
state; the spec-modelled token guard of design note 9 would leave the
metadata absent on the same trace. -/
theorem staleFetchOverwrites (m : VideoMetadata) :
    (run [Event.editUrl ("v/AAAAAAAAAAA")]).latestReq = some 0 ∧
    (run [Event.editUrl ("v/AAAAAAAAAAA"), Event.editUrl ("x")]).metadata = none ∧
    (run [Event.editUrl ("v/AAAAAAAAAAA"), Event.editUrl ("x"),
      Event.fetchComplete 0 (some m)]).metadata = some m ∧
    (runGuarded [Event.editUrl ("v/AAAAAAAAAAA"), Event.editUrl ("x"),
      Event.fetchComplete 0 (some m)]).metadata = none :=
  ⟨rfl, rfl, rfl, rfl⟩

end YtMp3
